import Mathlib

/-!
Verification of the Plink audio engine (audio.js): the cue-marker parser of
`AudioManager.speakWithSoundEffects`, the `play` / `stopLoop` operations with
their loop registry and audio-graph effects, and the `AudioSequence`
queue-dispatch state machine with its timing, cancellation and ordering
behaviour.

Machine integers do not occur in the source; JS numbers used by the audio
options are modelled as rationals, times of the dispatch loop as natural
numbers of milliseconds.
-/

namespace Plink

/-! ## Characters and strings

The cue-marker syntax uses brace characters; we name them via their code
points. `isDotChar` models which characters the JS regular-expression
atom for "any character" accepts (everything except the four line
terminators). -/

def lbrace : Char := Char.ofNat 123

def rbrace : Char := Char.ofNat 125

def isDotChar (c : Char) : Bool :=
  !(c = Char.ofNat 10 || c = Char.ofNat 13 || c = Char.ofNat 8232 || c = Char.ofNat 8233)

/-- The single-space separator used by `formattedText.split(' ')`. -/
def space1 : String := " "

def spaceChar : Char := Char.ofNat 32

/-- JS `split(' ')` on the character list: split at every single space,
keeping empty runs (so a leading, trailing or doubled space yields an empty
token, as in JS). -/
def splitTokens : List Char → List (List Char)
  | [] => [[]]
  | c :: rest =>
    match splitTokens rest with
    | [] => [[]]
    | t :: ts => if c = spaceChar then [] :: t :: ts else (c :: t) :: ts

/-- JS `s.split(' ')` as strings. -/
def splitSpaceTokens (s : String) : List String :=
  (splitTokens s.data).map (fun cs => String.mk cs)

/-! ## The cue-marker matcher

`AudioManager.speakWithSoundEffects` tests every whitespace-delimited token
with `tokens[i].match('{{(.*)}}')` (braces written here in words to keep the
embedding readable): the pattern is unanchored, the two braces are literal,
and the capture group is greedy and cannot cross a line terminator.  We embed
that JS regular expression search faithfully: the match starts at the
leftmost position where two opening braces are followed, at any
line-terminator-free distance, by two closing braces, and the greedy capture
extends to the last such pair of closing braces. -/

/-- All decompositions of a list into a left part and a right part, with the
left parts listed in increasing length. -/
def splitsList : List Char → List (List Char × List Char)
  | [] => [([], [])]
  | c :: cs => ([], c :: cs) :: (splitsList cs).map (fun p => (c :: p.1, p.2))

/-- Does the list begin with two closing braces? -/
def startsWithRR : List Char → Bool
  | a :: b :: _ => a = rbrace && b = rbrace
  | _ => false

/-- Greedy capture for the tail of the pattern: the longest line-terminator-free
left part that is followed by two closing braces, if any. -/
def greedyCapture (cs : List Char) : Option (List Char) :=
  (((splitsList cs).filter
      (fun p => p.1.all isDotChar && startsWithRR p.2)).map (fun p => p.1)).getLast?

/-- The unanchored search of the cue pattern: first position with two opening
braces whose greedy capture succeeds; returns the captured group. -/
def matchCue : List Char → Option (List Char)
  | [] => none
  | c :: rest =>
    if c = lbrace ∧ rest.head? = some lbrace then
      match greedyCapture rest.tail with
      | some cap => some cap
      | none => matchCue rest
    else matchCue rest

/-- The capture of the cue pattern on one token, as a string (`match(...)[1]`
in the source). -/
def cueOf (tok : String) : Option String :=
  (matchCue tok.data).map (fun cs => String.mk cs)

/-! ## Cue items and the parser loop of `speakWithSoundEffects` -/

inductive MediaType
  | text
  | sound
deriving DecidableEq

/-- One entry of an `AudioSequence` queue: `{item, mediaType, prefs}`.  Text
items carry the voice preference of the call; sound items are added without
preferences. -/
structure CueItem where
  item : String
  mediaType : MediaType
  voicePreference : Option String
deriving DecidableEq

/-- The token loop of `AudioManager.speakWithSoundEffects`: tokens whose cue
pattern matches flush the accumulated buffer (when non-empty) as a text item
and append a sound item named by the capture; other tokens are appended to
the buffer after a single space.  A non-empty final buffer is flushed at the
end. -/
def buildQueue (vp : Option String) : List String → String → List CueItem
  | [], buffer =>
    if buffer.length > 0 then [⟨buffer, MediaType.text, vp⟩] else []
  | tok :: rest, buffer =>
    match cueOf tok with
    | some soundName =>
      (if buffer.length > 0 then [⟨buffer, MediaType.text, vp⟩] else []) ++
        ⟨soundName, MediaType.sound, none⟩ :: buildQueue vp rest ("")
    | none => buildQueue vp rest (buffer ++ space1 ++ tok)

/-- The queue built by `speakWithSoundEffects` for a narration string: split
on single spaces, then run the token loop with an empty buffer. -/
def parseCues (formattedText : String) (voicePreference : Option String) : List CueItem :=
  buildQueue voicePreference (splitSpaceTokens formattedText) ("")

/-- Names of the sound items of a queue, in order. -/
def soundNames (q : List CueItem) : List String :=
  q.filterMap (fun it =>
    match it.mediaType with
    | MediaType.sound => some it.item
    | MediaType.text => none)

/-- Number of text items of a queue. -/
def textCount (q : List CueItem) : Nat :=
  (q.filter (fun it => it.mediaType = MediaType.text)).length

/-- The cue markers of a narration string: captures of the tokens accepted by
the cue pattern, in left-to-right source order. -/
def cueNames (s : String) : List String :=
  (splitSpaceTokens s).filterMap cueOf

/-! ## The `AudioManager` state: sound library and loop registry

`play` creates Web Audio nodes and connects them; we record those platform
calls as an effect list and give each buffer source a fresh numeric handle.
The loop registry entries are the dictionaries
`{soundName, loopHandle, isPlaying}` pushed by `play` when `loop` is set. -/

structure LoopEntry where
  soundName : String
  loopHandle : Nat
  isPlaying : Bool
deriving DecidableEq

structure AMState where
  soundLibrary : List String
  loops : List LoopEntry
  nextId : Nat
deriving DecidableEq

def freshManager : AMState :=
  { soundLibrary := [], loops := [], nextId := 0 }

/-- The recognized option fields of `play`, with the JS numbers as rationals.
`hasCallback` records whether a completion callback was supplied. -/
structure PlayOptions where
  volume : Rat
  panValue : Rat
  loop : Bool
  offset : Rat
  hasCallback : Bool
deriving DecidableEq

/-- The default options `{callback: null, volume: 1, panValue: 0, loop: false,
offset: 0}`. -/
def defaultPlayOptions : PlayOptions :=
  { volume := 1, panValue := 0, loop := false, offset := 0, hasCallback := false }

inductive AudioNode
  | source (id : Nat)
  | gainNode (gain : Rat)
  | pannerNode (pan : Rat)
  | destination
deriving DecidableEq

/-- Platform calls performed by `play` and `stopLoop`, in program order. -/
inductive Effect
  | connect (src dst : AudioNode)
  | setLoop (id : Nat)
  | setOnEnded (id : Nat)
  | startSource (id : Nat) (offset : Rat)
  | dispatchSoundEffect (name : String) (panValue volume : Rat) (loop : Bool)
  | stopSource (id : Nat)
deriving DecidableEq

deriving instance DecidableEq for Except

/-- The message of the error thrown for an unregistered name. -/
def notFoundMsg (name : String) : String :=
  "Sound " ++ name ++ " not found"

/-- `AudioManager.play`.  An unregistered name throws before anything else
happens; otherwise the source is created (fresh handle), an entry is pushed
on the loop registry when looping, the optional gain and panner stages are
inserted exactly when `volume != 1` and `panValue != 0`, the chain is
connected to the destination, playback is started with the `offset` argument,
and the `soundEffect` event is dispatched. -/
def play (s : AMState) (name : String) (o : PlayOptions) :
    Except String Nat × AMState × List Effect :=
  if name ∈ s.soundLibrary then
    let id := s.nextId
    let loops1 := if o.loop then s.loops ++ [⟨name, id, true⟩] else s.loops
    let loopEffs := if o.loop then [Effect.setLoop id] else []
    let cbEffs := if o.hasCallback then [Effect.setOnEnded id] else []
    let n0 : AudioNode := AudioNode.source id
    let p1 : AudioNode × List Effect :=
      if o.volume ≠ 1 then
        (AudioNode.gainNode o.volume, [Effect.connect n0 (AudioNode.gainNode o.volume)])
      else (n0, [])
    let p2 : AudioNode × List Effect :=
      if o.panValue ≠ 0 then
        (AudioNode.pannerNode o.panValue, p1.2 ++ [Effect.connect p1.1 (AudioNode.pannerNode o.panValue)])
      else p1
    let effs := loopEffs ++ cbEffs ++ p2.2 ++
      [Effect.connect p2.1 AudioNode.destination,
       Effect.startSource id o.offset,
       Effect.dispatchSoundEffect name o.panValue o.volume o.loop]
    (Except.ok id, { s with loops := loops1, nextId := id + 1 }, effs)
  else
    (Except.error (notFoundMsg name), s, [])

/-- The `forEach` pass of `AudioManager.stopLoop`: every entry whose name
matches and whose `isPlaying` flag is set has its handle stopped and its flag
cleared. -/
def stopLoopPass (name : String) : List LoopEntry → List LoopEntry × List Effect
  | [] => ([], [])
  | e :: rest =>
    let p := stopLoopPass name rest
    if e.soundName == name && e.isPlaying then
      (⟨e.soundName, e.loopHandle, false⟩ :: p.1, Effect.stopSource e.loopHandle :: p.2)
    else (e :: p.1, p.2)

/-- `AudioManager.stopLoop`: run the pass, then keep only the entries whose
`isPlaying` flag is still set. -/
def stopLoop (s : AMState) (name : String) : AMState × List Effect :=
  let p := stopLoopPass name s.loops
  ({ s with loops := p.1.filter (fun e => e.isPlaying) }, p.2)

/-- `AudioManager.addSound`, at the registry level: a successful load
registers the name (fetch and decode are platform calls). -/
def addSound (s : AMState) (name : String) : AMState :=
  { s with soundLibrary := name :: s.soundLibrary }

/-- Public manager operations that touch the registry state. -/
inductive AMOp
  | addSoundOp (name : String)
  | playOp (name : String) (o : PlayOptions)
  | stopLoopOp (name : String)
deriving DecidableEq

def runOp (s : AMState) : AMOp → AMState
  | AMOp.addSoundOp name => addSound s name
  | AMOp.playOp name o => (play s name o).2.1
  | AMOp.stopLoopOp name => (stopLoop s name).1

def runOps (s : AMState) : List AMOp → AMState
  | [] => s
  | op :: rest => runOps (runOp s op) rest

/-! ## Audio-graph observations used by the graph claim -/

/-- The connect calls of an effect list, as edges in order. -/
def connectEdges (effs : List Effect) : List (AudioNode × AudioNode) :=
  effs.filterMap (fun e =>
    match e with
    | Effect.connect a b => some (a, b)
    | _ => none)

/-- Consecutive pairs of a node list. -/
def chainEdges (l : List AudioNode) : List (AudioNode × AudioNode) :=
  l.zip l.tail

/-- The node chain described by the specification: source, then a gain stage
exactly when `volume` differs from 1, then a pan stage exactly when `pan`
differs from 0, then the output. -/
def specGraphNodes (id : Nat) (volume panValue : Rat) : List AudioNode :=
  [AudioNode.source id] ++
    (if volume ≠ 1 then [AudioNode.gainNode volume] else []) ++
    (if panValue ≠ 0 then [AudioNode.pannerNode panValue] else []) ++
    [AudioNode.destination]

/-- The argument of the first `startSource` call of an effect list. -/
def startArg (effs : List Effect) : Option Rat :=
  (effs.filterMap (fun e =>
    match e with
    | Effect.startSource _ w => some w
    | _ => none)).head?

/-- Modelled from the Web Audio platform interface used by the source:
`AudioBufferSourceNode.start(when)` schedules playback at the absolute
context-clock time `when`, clamped below by the current time.  The rhythm
example of this repository relies on exactly this absolute interpretation by
passing `getTime()`-derived timestamps as `offset`. -/
def audioBufferStartTime (currentTime whenArg : Rat) : Rat :=
  if whenArg ≤ currentTime then currentTime else whenArg

/-- The time at which the playback begun by an effect list becomes audible,
for a given current context time. -/
def playBeginTime (currentTime : Rat) (effs : List Effect) : Option Rat :=
  (startArg effs).map (audioBufferStartTime currentTime)

/-- The begin time asserted by the specification sentence: `startOffset`
relative to `now()`.  Stated from the words of the spec, for comparison with
the platform semantics above. -/
def specRelativeBeginTime (currentTime offset : Rat) : Rat :=
  currentTime + offset

/-! ## The `AudioSequence` dispatch state machine

The sequencer fields are `queue`, `spacing` and `isPlaying`; what is pending
on the event loop (an in-flight item completion callback, or the
`sleep(spacing)` timer armed by `callback`) is part of the runtime
configuration.  Times are milliseconds on an abstract monotone clock.

The environment fires the completion callback of a dispatched item exactly
once (speech end / sound `onended`), and fires a timer no earlier than its
delay; `cancel` can be called by external code at any point.  The `doNext`
branch taken when the queue is empty or the sequence is no longer playing
calls `this.shutdown()`, a method the class does not define, so that branch
raises a `TypeError`; it appears below as the `shutdownError` label. -/

inductive Pending
  | fresh
  | idle
  | awaiting
  | sleeping (since : Nat)
deriving DecidableEq

structure Config where
  queue : List CueItem
  isPlaying : Bool
  spacing : Nat
  pending : Pending
deriving DecidableEq

/-- The spacing argument defaulted by the `AudioSequence` constructor. -/
def defaultSpacing : Nat := 100

/-- The state of a sequence just constructed by `speakWithSoundEffects`,
before `start()` runs. -/
def freshConfig (items : List CueItem) (sp : Nat) : Config :=
  ⟨items, false, sp, Pending.fresh⟩

inductive Label
  | dispatch (i : CueItem)
  | complete
  | cancelCall
  | shutdownError
deriving DecidableEq

/-- One event of the sequencer at a given time.

* `startDispatch` / `startEmpty`: `start()` sets `isPlaying` and runs
  `doNext` synchronously — it shifts and dispatches the head item, or hits
  the undefined `shutdown` on an empty queue.
* `completeDone` / `completeMore`: the completion callback of the in-flight
  item runs `callback()` — with an empty queue it calls `cancel()`, otherwise
  it arms the spacing timer.
* `timerDispatch` / `timerShutdown`: the timer resolves no earlier than
  `spacing` after it was armed and runs `doNext` — it dispatches the head
  item while the queue is non-empty and still playing, and otherwise calls
  the undefined `shutdown`, raising a `TypeError`.
* `cancelStep`: external `cancel()` clears `isPlaying` and empties the queue
  immediately; whatever was pending on the event loop stays pending. -/
inductive Step : Nat → Config → Label → Config → Prop
  | startDispatch {t : Nat} {h : CueItem} {rest : List CueItem} {b : Bool} {sp : Nat} :
      Step t ⟨h :: rest, b, sp, Pending.fresh⟩ (Label.dispatch h) ⟨rest, true, sp, Pending.awaiting⟩
  | startEmpty {t : Nat} {b : Bool} {sp : Nat} :
      Step t ⟨[], b, sp, Pending.fresh⟩ Label.shutdownError ⟨[], true, sp, Pending.idle⟩
  | completeDone {t : Nat} {b : Bool} {sp : Nat} :
      Step t ⟨[], b, sp, Pending.awaiting⟩ Label.complete ⟨[], false, sp, Pending.idle⟩
  | completeMore {t : Nat} {h : CueItem} {rest : List CueItem} {b : Bool} {sp : Nat} :
      Step t ⟨h :: rest, b, sp, Pending.awaiting⟩ Label.complete ⟨h :: rest, b, sp, Pending.sleeping t⟩
  | timerDispatch {t s : Nat} {h : CueItem} {rest : List CueItem} {sp : Nat} :
      s + sp ≤ t →
      Step t ⟨h :: rest, true, sp, Pending.sleeping s⟩ (Label.dispatch h) ⟨rest, true, sp, Pending.awaiting⟩
  | timerShutdown {t s : Nat} {q : List CueItem} {b : Bool} {sp : Nat} :
      s + sp ≤ t → (q = [] ∨ b = false) →
      Step t ⟨q, b, sp, Pending.sleeping s⟩ Label.shutdownError ⟨q, b, sp, Pending.idle⟩
  | cancelStep {t : Nat} {q : List CueItem} {b : Bool} {sp : Nat} {p : Pending} :
      Step t ⟨q, b, sp, p⟩ Label.cancelCall ⟨[], false, sp, p⟩

/-- A timed event trace of one sequence: events at non-decreasing times, each
a `Step`. -/
inductive Trace : Nat → Config → List (Nat × Label) → Config → Prop
  | nil {t : Nat} {c : Config} : Trace t c [] c
  | cons {t0 t : Nat} {c c' c'' : Config} {l : Label} {evs : List (Nat × Label)} :
      t0 ≤ t → Step t c l c' → Trace t c' evs c'' → Trace t0 c ((t, l) :: evs) c''

/-- No external `cancel()` call occurs in the trace. -/
def CancelFree (evs : List (Nat × Label)) : Prop :=
  ∀ p ∈ evs, p.2 ≠ Label.cancelCall

instance (evs : List (Nat × Label)) : Decidable (CancelFree evs) :=
  inferInstanceAs (Decidable (∀ p ∈ evs, p.2 ≠ Label.cancelCall))

/-- The items dispatched along a trace, in order. -/
def dispatched (evs : List (Nat × Label)) : List CueItem :=
  evs.filterMap (fun p =>
    match p.2 with
    | Label.dispatch i => some i
    | _ => none)

/-- The spacing discipline between adjacent events: an event followed
immediately by a dispatch is the completion of the previous item, at least
`sp` earlier. -/
def gapRel (sp : Nat) (a b : Nat × Label) : Prop :=
  (∃ i, b.2 = Label.dispatch i) → a.2 = Label.complete ∧ a.1 + sp ≤ b.1

/-! ## The facade: `speakWithSoundEffects`

The facade keeps the created sequences alive through their pending callbacks;
we model the object heap as the list of sequence configurations, with
`current` the index stored in `this.queue`.  `speakWithSoundEffects` parses
the narration string, creates a new sequence, starts it synchronously, and
stores it as current — it performs no operation on any existing sequence. -/

/-- The synchronous `start()` call: the transition it takes and the event it
emits, as a function. -/
def startConfig (c : Config) (t : Nat) : Config × List (Nat × Label) :=
  match c.queue with
  | h :: rest => (⟨rest, true, c.spacing, Pending.awaiting⟩, [(t, Label.dispatch h)])
  | [] => (⟨[], true, c.spacing, Pending.idle⟩, [(t, Label.shutdownError)])

structure World where
  seqs : List Config
  current : Option Nat
deriving DecidableEq

/-- `AudioManager.speakWithSoundEffects` at the heap level: build the queue
from the narration string, start it at time `t`, append the new sequence to
the heap and point `current` at it.  No existing sequence is touched. -/
def speakWithSoundEffectsW (w : World) (formattedText : String) (vp : Option String)
    (t : Nat) : World × List (Nat × Label) :=
  let p := startConfig (freshConfig (parseCues formattedText vp) defaultSpacing) t
  ({ seqs := w.seqs ++ [p.1], current := some w.seqs.length }, p.2)

/-- A step of one sequence of the heap. -/
inductive WStep : Nat → World → Nat × Label → World → Prop
  | seq {t : Nat} {w : World} {i : Nat} {l : Label} {c' : Config} (hi : i < w.seqs.length) :
      Step t (w.seqs.get ⟨i, hi⟩) l c' →
      WStep t w (i, l) ⟨w.seqs.set i c', w.current⟩

/-! ## Concrete inputs used by witnesses and counterexamples -/

/-- The narration string of the winning scenario, with the cue marker around
`win`. -/
def s4 : String := "You win \x7b\x7bwin\x7d\x7d great job"

def c4textA : CueItem := ⟨" You win", MediaType.text, none⟩

def c4soundWin : CueItem := ⟨"win", MediaType.sound, none⟩

def c4textB : CueItem := ⟨" great job", MediaType.text, none⟩

def c4claimedA : CueItem := ⟨"You win", MediaType.text, none⟩

def c4claimedB : CueItem := ⟨"great job", MediaType.text, none⟩

/-- Timed events of one full run of the winning-scenario queue. -/
def evs4 : List (Nat × Label) :=
  [(0, Label.dispatch c4textA), (7, Label.complete),
   (107, Label.dispatch c4soundWin), (110, Label.complete),
   (210, Label.dispatch c4textB), (214, Label.complete)]

/-- A token with the marker syntax embedded inside a larger token. -/
def sEmbedded : String := "a\x7b\x7bb\x7d\x7dc"

/-- A token with an unclosed marker. -/
def sUnclosed : String := "\x7b\x7bname"

def c5soundB : CueItem := ⟨"b", MediaType.sound, none⟩

/-- The text content accumulated for the unclosed-marker token (note the
leading space from the buffer join). -/
def sSpaceUnclosed : String := " \x7b\x7bname"

def c3narration : String := "go \x7b\x7bbell\x7d\x7d now \x7b\x7bhorn\x7d\x7d"

def c3textItem : CueItem := ⟨" go", MediaType.text, none⟩

def c6a : CueItem := ⟨" hello", MediaType.text, none⟩

def c6b : CueItem := ⟨"boom", MediaType.sound, none⟩

/-- Events of a run where `cancel()` arrives during the spacing delay and the
already-armed timer then fires: `doNext` takes the branch that calls the
undefined `shutdown` method. -/
def evs6 : List (Nat × Label) :=
  [(0, Label.dispatch c6a), (5, Label.complete),
   (20, Label.cancelCall), (105, Label.shutdownError)]

def c1soundItem : CueItem := ⟨"thunder", MediaType.sound, none⟩

/-- An active queue caught during its spacing delay, one sound item left. -/
def c1old : Config := ⟨[c1soundItem], true, defaultSpacing, Pending.sleeping 10⟩

def c1world : World := ⟨[c1old], some 0⟩

def sHello : String := "hello"

def w9a : CueItem := ⟨" ready", MediaType.text, none⟩

def w9b : CueItem := ⟨"zap", MediaType.sound, none⟩

def evs9 : List (Nat × Label) :=
  [(0, Label.dispatch w9a), (5, Label.complete),
   (105, Label.dispatch w9b), (110, Label.complete)]

def c2name : String := "boing"

def s8 : AMState := ⟨["w"], [], 0⟩

def soundW : String := "w"

def o8 : PlayOptions := ⟨1, 0, false, 2, false⟩

def s7 : AMState := ⟨["rain", "wind"], [⟨"rain", 0, true⟩, ⟨"rain", 1, true⟩, ⟨"wind", 2, true⟩], 3⟩

def loopName7 : String := "rain"

/-- A registry with no loop registered under `rain`. -/
def s7b : AMState := ⟨["rain", "wind"], [⟨"wind", 2, true⟩], 3⟩

def loopOpts10 : PlayOptions := ⟨1, 0, true, 0, false⟩

def ops10 : List AMOp := [AMOp.addSoundOp ("rain"), AMOp.playOp ("rain") loopOpts10]

def e10 : LoopEntry := ⟨"rain", 0, true⟩

/-! ## Parser lemmas -/

theorem buildQueue_soundNames (vp : Option String) (toks : List String) :
    ∀ buffer, soundNames (buildQueue vp toks buffer) = toks.filterMap cueOf := by
  induction toks with
  | nil =>
    intro buffer
    by_cases hb : buffer.length > 0 <;> simp [buildQueue, hb, soundNames]
  | cons tok rest ih =>
    intro buffer
    have h2 := ih ("")
    have h3 := ih (buffer ++ space1 ++ tok)
    cases hc : cueOf tok with
    | some nm =>
      by_cases hb : buffer.length > 0 <;>
        simp [buildQueue, hc, hb, soundNames, List.filterMap_cons] at h2 ⊢ <;>
        exact h2
    | none =>
      simp [buildQueue, hc, soundNames, List.filterMap_cons] at h3 ⊢
      exact h3

theorem buildQueue_textCount (vp : Option String) (toks : List String) :
    ∀ buffer, textCount (buildQueue vp toks buffer) ≤ (toks.filterMap cueOf).length + 1 := by
  induction toks with
  | nil =>
    intro buffer
    by_cases hb : buffer.length > 0 <;> simp [buildQueue, hb, textCount]
  | cons tok rest ih =>
    intro buffer
    cases hc : cueOf tok with
    | some nm =>
      have h2 := ih ("")
      by_cases hb : buffer.length > 0 <;>
        simp only [buildQueue, hc, hb, if_true, if_false, textCount, List.filter_append,
          List.filter_cons, List.length_append, List.filterMap_cons] at h2 ⊢ <;>
        simp at h2 ⊢ <;> omega
    | none =>
      simp only [buildQueue, hc, List.filterMap_cons]
      exact ih _

theorem buildQueue_textNonempty (vp : Option String) (toks : List String) :
    ∀ buffer, ∀ it ∈ buildQueue vp toks buffer,
      it.mediaType = MediaType.text → 0 < it.item.length := by
  induction toks with
  | nil =>
    intro buffer it hit htext
    by_cases hb : buffer.length > 0
    · simp [buildQueue, hb] at hit
      rw [hit]
      exact hb
    · simp [buildQueue, hb] at hit
  | cons tok rest ih =>
    intro buffer it hit htext
    cases hc : cueOf tok with
    | some nm =>
      by_cases hb : buffer.length > 0 <;>
        simp [buildQueue, hc, hb] at hit
      · rcases hit with hit | hit | hit
        · rw [hit]; exact hb
        · rw [hit] at htext; simp at htext
        · exact ih _ it hit htext
      · rcases hit with hit | hit
        · rw [hit] at htext; simp at htext
        · exact ih _ it hit htext
    | none =>
      exact ih _ it (by simpa [buildQueue, hc] using hit) htext

/-- Claim C3: for every narration string, the parser of
`speakWithSoundEffects` produces exactly one sound item per cue marker, with
the asset names in left-to-right source order, at most one text item more
than there are markers, and no empty text item. -/
theorem speakWithSoundEffects_parse_counts (s : String) (vp : Option String) :
    soundNames (parseCues s vp) = cueNames s ∧
    textCount (parseCues s vp) ≤ (cueNames s).length + 1 ∧
    ∀ it ∈ parseCues s vp, it.mediaType = MediaType.text → 0 < it.item.length :=
  ⟨buildQueue_soundNames vp (splitSpaceTokens s) (""),
   buildQueue_textCount vp (splitSpaceTokens s) (""),
   buildQueue_textNonempty vp (splitSpaceTokens s) ("")⟩

/-- Witness for C3 on a concrete narration string with two cue markers. -/
theorem speakWithSoundEffects_parse_counts_witness :
    soundNames (parseCues c3narration none) = cueNames c3narration ∧
    textCount (parseCues c3narration none) ≤ (cueNames c3narration).length + 1 ∧
    0 < c3textItem.item.length :=
  ⟨(speakWithSoundEffects_parse_counts c3narration none).1,
   (speakWithSoundEffects_parse_counts c3narration none).2.1,
   (speakWithSoundEffects_parse_counts c3narration none).2.2 c3textItem (by decide) (by decide)⟩

/-! ## Lemmas about play and stopLoop -/

/-- Claim C2: `play` on an unregistered name fails with the not-found error,
leaves the manager state unchanged, and performs no platform call (no audio
node, no playback, no `soundEffect` notification). -/
theorem play_missing_fails (s : AMState) (name : String) (o : PlayOptions)
    (h : name ∉ s.soundLibrary) :
    play s name o = (Except.error (notFoundMsg name), s, []) := by
  simp [play, h]

/-- Witness for C2 on a fresh manager. -/
theorem play_missing_fails_witness :
    play freshManager c2name defaultPlayOptions =
      (Except.error (notFoundMsg c2name), freshManager, []) :=
  play_missing_fails freshManager c2name defaultPlayOptions (by decide)

theorem stopLoopPass_fst (name : String) (l : List LoopEntry) :
    (stopLoopPass name l).1 =
      l.map (fun e =>
        if e.soundName == name && e.isPlaying then ⟨e.soundName, e.loopHandle, false⟩ else e) := by
  induction l with
  | nil => rfl
  | cons e rest ih =>
    by_cases hm : (e.soundName = name ∧ e.isPlaying = true) <;> simp [stopLoopPass, hm, ih]

theorem stopLoopPass_snd (name : String) (l : List LoopEntry) :
    (stopLoopPass name l).2 =
      (l.filter (fun e => e.soundName == name && e.isPlaying)).map
        (fun e => Effect.stopSource e.loopHandle) := by
  induction l with
  | nil => rfl
  | cons e rest ih =>
    by_cases hm : (e.soundName = name ∧ e.isPlaying = true) <;>
      simp [stopLoopPass, hm, ih, List.filter_cons]

theorem mapStop_filter (name : String) (l : List LoopEntry) :
    ((l.map (fun e =>
        if e.soundName == name && e.isPlaying then ⟨e.soundName, e.loopHandle, false⟩ else e)).filter
      (fun e => e.isPlaying)) =
      l.filter (fun e => e.isPlaying && !(e.soundName == name)) := by
  induction l with
  | nil => rfl
  | cons e rest ih =>
    simp only [List.map_cons, List.filter_cons, ih]
    by_cases hn : e.soundName = name <;> by_cases hp : e.isPlaying = true <;>
      simp [hn, hp]

theorem stopLoop_loops (s : AMState) (name : String) :
    (stopLoop s name).1.loops =
      s.loops.filter (fun e => e.isPlaying && !(e.soundName == name)) := by
  show ((stopLoopPass name s.loops).1.filter (fun e => e.isPlaying)) = _
  rw [stopLoopPass_fst]
  exact mapStop_filter name s.loops

theorem stopLoopPass_noop (name : String) (l : List LoopEntry)
    (h : ∀ e ∈ l, e.isPlaying = true ∧ e.soundName ≠ name) :
    stopLoopPass name l = (l, []) := by
  induction l with
  | nil => rfl
  | cons e rest ih =>
    have he := h e (by simp)
    have hr := ih (fun x hx => h x (by simp [hx]))
    simp [stopLoopPass, he.1, he.2, hr]

theorem stopLoop_noop (s : AMState) (name : String)
    (h : ∀ e ∈ s.loops, e.isPlaying = true ∧ e.soundName ≠ name) :
    stopLoop s name = (s, []) := by
  simp [stopLoop, stopLoopPass_noop name s.loops h,
    List.filter_eq_self.mpr (fun e he => (h e he).1)]

theorem stopLoop_idem (s : AMState) (name : String) :
    stopLoop (stopLoop s name).1 name = ((stopLoop s name).1, []) := by
  apply stopLoop_noop
  intro e he
  rw [stopLoop_loops] at he
  have hcond := (List.mem_filter.mp he).2
  simp only [Bool.and_eq_true, Bool.not_eq_true', beq_eq_false_iff_ne] at hcond
  exact hcond

/-- Claim C7: `stopLoop` stops every matching active loop (one stop call per
matching active entry, in registry order), clears and removes exactly those
entries, is idempotent, and is a no-op when no matching active loop exists. -/
theorem stopLoop_spec (s : AMState) (name : String) :
    (stopLoop s name).1.loops =
        s.loops.filter (fun e => e.isPlaying && !(e.soundName == name)) ∧
    (stopLoop s name).2 =
        (s.loops.filter (fun e => e.soundName == name && e.isPlaying)).map
          (fun e => Effect.stopSource e.loopHandle) ∧
    stopLoop (stopLoop s name).1 name = ((stopLoop s name).1, []) ∧
    ((∀ e ∈ s.loops, e.isPlaying = true) →
      (∀ e ∈ s.loops, ¬(e.soundName = name ∧ e.isPlaying = true)) →
      stopLoop s name = (s, [])) := by
  refine ⟨stopLoop_loops s name, by simp [stopLoop, stopLoopPass_snd], stopLoop_idem s name, ?_⟩
  intro hinv hnm
  apply stopLoop_noop
  intro e he
  refine ⟨hinv e he, ?_⟩
  intro hEq
  exact hnm e he ⟨hEq, hinv e he⟩

/-- Witness for C7: two active loops under one name are both stopped and
removed, the third entry survives, a second call does nothing, and a name
with no active loop is a no-op. -/
theorem stopLoop_spec_witness :
    (stopLoop s7 loopName7).1.loops = [⟨"wind", 2, true⟩] ∧
    (stopLoop s7 loopName7).2 = [Effect.stopSource 0, Effect.stopSource 1] ∧
    stopLoop (stopLoop s7 loopName7).1 loopName7 = ((stopLoop s7 loopName7).1, []) ∧
    stopLoop s7b loopName7 = (s7b, []) :=
  ⟨((stopLoop_spec s7 loopName7).1).trans (by decide),
   ((stopLoop_spec s7 loopName7).2.1).trans (by decide),
   (stopLoop_spec s7 loopName7).2.2.1,
   (stopLoop_spec s7b loopName7).2.2.2 (by decide) (by decide)⟩

theorem play_startArg (s : AMState) (name : String) (o : PlayOptions)
    (h : name ∈ s.soundLibrary) :
    startArg (play s name o).2.2 = some o.offset := by
  simp only [play, if_pos h]
  cases hl : o.loop <;> cases hcb : o.hasCallback <;>
    by_cases hv : o.volume ≠ 1 <;> by_cases hp : o.panValue ≠ 0 <;>
      simp [startArg, hl, hcb, hv, hp]

theorem play_connectEdges (s : AMState) (name : String) (o : PlayOptions)
    (h : name ∈ s.soundLibrary) :
    connectEdges (play s name o).2.2 =
      chainEdges (specGraphNodes s.nextId o.volume o.panValue) := by
  simp only [play, if_pos h]
  cases hl : o.loop <;> cases hcb : o.hasCallback <;>
    by_cases hv : o.volume ≠ 1 <;> by_cases hp : o.panValue ≠ 0 <;>
      simp [connectEdges, chainEdges, specGraphNodes, hl, hcb, hv, hp]

/-- Claim C8 (amended): for a registered name, `play` connects exactly the
chain source, then a gain stage iff `volume` differs from 1, then a pan stage
iff `panValue` differs from 0, then the output; and it passes `offset` as the
absolute context-clock argument of the source start call, so playback begins
at `offset` clamped below by the current time — not at `offset` relative to
the current time. -/
theorem play_graph_and_start (s : AMState) (name : String) (o : PlayOptions)
    (h : name ∈ s.soundLibrary) :
    connectEdges (play s name o).2.2 =
        chainEdges (specGraphNodes s.nextId o.volume o.panValue) ∧
    ∀ currentTime : Rat,
      playBeginTime currentTime (play s name o).2.2 =
        some (audioBufferStartTime currentTime o.offset) :=
  ⟨play_connectEdges s name o h,
   fun _ => by simp [playBeginTime, play_startArg s name o h]⟩

/-- Witness for C8 at a registered one-sound manager with default volume and
pan, offset 2 and current time 5. -/
theorem play_graph_and_start_witness :
    connectEdges (play s8 soundW o8).2.2 =
        chainEdges (specGraphNodes s8.nextId o8.volume o8.panValue) ∧
    playBeginTime 5 (play s8 soundW o8).2.2 = some (audioBufferStartTime 5 o8.offset) :=
  ⟨(play_graph_and_start s8 soundW o8 (by decide)).1,
   (play_graph_and_start s8 soundW o8 (by decide)).2 5⟩

/-- Counterexample to C8 as stated: with the context clock at 1 and offset 2,
the source start call receives 2 and playback becomes audible at absolute
time 2, while the claimed begin time relative to now would be 3. -/
theorem play_start_not_relative :
    playBeginTime 1 (play s8 soundW o8).2.2 = some 2 ∧
    specRelativeBeginTime 1 o8.offset = 3 ∧
    ¬((2 : Rat) = 3) :=
  ⟨by decide, by norm_num [specRelativeBeginTime, o8], by norm_num⟩

theorem runOps_loops_playing (ops : List AMOp) :
    ∀ s : AMState, (∀ e ∈ s.loops, e.isPlaying = true) →
      ∀ e ∈ (runOps s ops).loops, e.isPlaying = true := by
  induction ops with
  | nil =>
    intro s hs
    simpa [runOps] using hs
  | cons op rest ih =>
    intro s hs
    refine ih (runOp s op) ?_
    cases op with
    | addSoundOp name =>
      simpa [runOp, addSound] using hs
    | playOp name o =>
      intro e he
      by_cases h : name ∈ s.soundLibrary
      · cases hl : o.loop <;> simp [runOp, play, h, hl] at he
        · exact hs e he
        · rcases he with he | he
          · exact hs e he
          · rw [he]
      · simp [runOp, play, h] at he
        exact hs e he
    | stopLoopOp name =>
      intro e he
      simp only [runOp] at he
      rw [stopLoop_loops] at he
      have hcond := (List.mem_filter.mp he).2
      simp only [Bool.and_eq_true] at hcond
      exact hcond.1

/-- Claim C10: after any sequence of public manager operations from a fresh
manager, every entry of the loop registry has its liveness flag set. -/
theorem loops_registry_playing (ops : List AMOp) (e : LoopEntry)
    (he : e ∈ (runOps freshManager ops).loops) : e.isPlaying = true :=
  runOps_loops_playing ops freshManager (by simp [freshManager]) e he

/-- Witness for C10 after registering and loop-playing one sound. -/
theorem loops_registry_playing_witness : e10.isPlaying = true :=
  loops_registry_playing ops10 e10 (by decide)

/-! ## Trace lemmas for the dispatch state machine -/

theorem dispatched_cons_dispatch (t : Nat) (i : CueItem) (evs : List (Nat × Label)) :
    dispatched ((t, Label.dispatch i) :: evs) = i :: dispatched evs := rfl

/-- Structure of every cancel-free trace: the dispatched items form a prefix
of the pending queue, a trace can open with a dispatch only from the fresh
state or from a sleeping state whose delay has elapsed, and every dispatch is
immediately preceded by the completion of the previous item at least
`spacing` earlier. -/
theorem trace_shape {t0 : Nat} {c : Config} {evs : List (Nat × Label)} {c'' : Config}
    (htr : Trace t0 c evs c'') :
    CancelFree evs →
    (∃ r, c.queue = dispatched evs ++ r) ∧
    (∀ t' i, evs.head? = some (t', Label.dispatch i) →
      c.pending = Pending.fresh ∨
        ∃ s, c.pending = Pending.sleeping s ∧ s + c.spacing ≤ t') ∧
    List.Chain' (gapRel c.spacing) evs := by
  induction htr with
  | nil =>
    intro _
    refine ⟨⟨_, (List.nil_append _).symm⟩, ?_, ?_⟩
    · intro t' i h
      simp at h
    · simp
  | @cons u0 u c cMid cEnd l evs' hle hstep htail ih =>
    intro hcf
    have hlne : l ≠ Label.cancelCall := hcf (u, l) (List.mem_cons_self _ _)
    have hcf' : CancelFree evs' := fun p hp => hcf p (List.mem_cons_of_mem _ hp)
    obtain ⟨⟨r, hq⟩, hhead, hchain⟩ := ih hcf'
    cases hstep with
    | @startDispatch itm rest b sp =>
      refine ⟨⟨r, ?_⟩, ?_, ?_⟩
      · show itm :: rest = dispatched ((u, Label.dispatch itm) :: evs') ++ r
        rw [dispatched_cons_dispatch, List.cons_append, ← hq]
      · intro t' i hh
        exact Or.inl rfl
      · rw [List.chain'_cons']
        refine ⟨?_, hchain⟩
        intro bEv hb hdisp
        obtain ⟨i, hi⟩ := hdisp
        have h5 : evs'.head? = some (bEv.1, Label.dispatch i) := by
          rw [Option.mem_def] at hb
          rw [hb, ← hi]
        rcases hhead bEv.1 i h5 with hP | ⟨s', hP, _⟩
        · exact Pending.noConfusion hP
        · exact Pending.noConfusion hP
    | @startEmpty b sp =>
      have hde : dispatched evs' = [] := (List.append_eq_nil.mp hq.symm).1
      refine ⟨⟨[], ?_⟩, ?_, ?_⟩
      · show ([] : List CueItem) = dispatched ((u, Label.shutdownError) :: evs') ++ []
        rw [List.append_nil]
        exact hde.symm
      · intro t' i hh
        simp at hh
      · rw [List.chain'_cons']
        refine ⟨?_, hchain⟩
        intro bEv hb hdisp
        obtain ⟨i, hi⟩ := hdisp
        have h5 : evs'.head? = some (bEv.1, Label.dispatch i) := by
          rw [Option.mem_def] at hb
          rw [hb, ← hi]
        rcases hhead bEv.1 i h5 with hP | ⟨s', hP, _⟩
        · exact Pending.noConfusion hP
        · exact Pending.noConfusion hP
    | @completeDone b sp =>
      have hde : dispatched evs' = [] := (List.append_eq_nil.mp hq.symm).1
      refine ⟨⟨[], ?_⟩, ?_, ?_⟩
      · show ([] : List CueItem) = dispatched ((u, Label.complete) :: evs') ++ []
        rw [List.append_nil]
        exact hde.symm
      · intro t' i hh
        simp at hh
      · rw [List.chain'_cons']
        refine ⟨?_, hchain⟩
        intro bEv hb hdisp
        obtain ⟨i, hi⟩ := hdisp
        have h5 : evs'.head? = some (bEv.1, Label.dispatch i) := by
          rw [Option.mem_def] at hb
          rw [hb, ← hi]
        rcases hhead bEv.1 i h5 with hP | ⟨s', hP, _⟩
        · exact Pending.noConfusion hP
        · exact Pending.noConfusion hP
    | @completeMore itm rest b sp =>
      refine ⟨⟨r, ?_⟩, ?_, ?_⟩
      · show itm :: rest = dispatched ((u, Label.complete) :: evs') ++ r
        exact hq
      · intro t' i hh
        simp at hh
      · rw [List.chain'_cons']
        refine ⟨?_, hchain⟩
        intro bEv hb hdisp
        obtain ⟨i, hi⟩ := hdisp
        have h5 : evs'.head? = some (bEv.1, Label.dispatch i) := by
          rw [Option.mem_def] at hb
          rw [hb, ← hi]
        rcases hhead bEv.1 i h5 with hP | ⟨s', hP, hle'⟩
        · exact Pending.noConfusion hP
        · have hP2 : Pending.sleeping u = Pending.sleeping s' := hP
          refine ⟨rfl, ?_⟩
          injection hP2 with hus
          rw [hus]
          exact hle'
    | @timerDispatch s itm rest sp hts =>
      refine ⟨⟨r, ?_⟩, ?_, ?_⟩
      · show itm :: rest = dispatched ((u, Label.dispatch itm) :: evs') ++ r
        rw [dispatched_cons_dispatch, List.cons_append, ← hq]
      · intro t' i hh
        right
        simp only [List.head?_cons, Option.some.injEq, Prod.mk.injEq] at hh
        refine ⟨s, rfl, ?_⟩
        rw [← hh.1]
        exact hts
      · rw [List.chain'_cons']
        refine ⟨?_, hchain⟩
        intro bEv hb hdisp
        obtain ⟨i, hi⟩ := hdisp
        have h5 : evs'.head? = some (bEv.1, Label.dispatch i) := by
          rw [Option.mem_def] at hb
          rw [hb, ← hi]
        rcases hhead bEv.1 i h5 with hP | ⟨s', hP, _⟩
        · exact Pending.noConfusion hP
        · exact Pending.noConfusion hP
    | @timerShutdown s q b sp hts hqb =>
      refine ⟨⟨r, ?_⟩, ?_, ?_⟩
      · show q = dispatched ((u, Label.shutdownError) :: evs') ++ r
        exact hq
      · intro t' i hh
        simp at hh
      · rw [List.chain'_cons']
        refine ⟨?_, hchain⟩
        intro bEv hb hdisp
        obtain ⟨i, hi⟩ := hdisp
        have h5 : evs'.head? = some (bEv.1, Label.dispatch i) := by
          rw [Option.mem_def] at hb
          rw [hb, ← hi]
        rcases hhead bEv.1 i h5 with hP | ⟨s', hP, _⟩
        · exact Pending.noConfusion hP
        · exact Pending.noConfusion hP
    | cancelStep =>
      exact absurd rfl hlne

/-- Claim C9: within one un-canceled queue, the dispatched items are a prefix
of the queue in source order, and every dispatch after the first immediately
follows the completion of the previous item with at least the spacing delay
in between. -/
theorem queue_dispatch_order (t0 sp : Nat) (items : List CueItem)
    (evs : List (Nat × Label)) (c'' : Config)
    (htr : Trace t0 (freshConfig items sp) evs c'') (hcf : CancelFree evs) :
    (∃ r, items = dispatched evs ++ r) ∧ List.Chain' (gapRel sp) evs :=
  ⟨(trace_shape htr hcf).1, (trace_shape htr hcf).2.2⟩

theorem trace9 : Trace 0 (freshConfig [w9a, w9b] defaultSpacing) evs9
    ⟨[], false, defaultSpacing, Pending.idle⟩ := by
  refine Trace.cons (by decide) Step.startDispatch ?_
  refine Trace.cons (by decide) Step.completeMore ?_
  refine Trace.cons (by decide) (Step.timerDispatch (by decide)) ?_
  refine Trace.cons (by decide) Step.completeDone ?_
  exact Trace.nil

/-- Witness for C9 on a two-item queue played to completion. -/
theorem queue_dispatch_order_witness :
    (∃ r, [w9a, w9b] = dispatched evs9 ++ r) ∧ List.Chain' (gapRel defaultSpacing) evs9 :=
  queue_dispatch_order 0 defaultSpacing [w9a, w9b] evs9
    ⟨[], false, defaultSpacing, Pending.idle⟩ trace9 (by decide)

/-- Claim C6 (code bug): when `cancel()` arrives while the queue is suspended
in the spacing delay, the already-armed timer later fires and `doNext` takes
its else branch, which calls `this.shutdown()` — a method `AudioSequence`
does not define — so the canceled queue raises a `TypeError` instead of
staying silent.  The trace below reaches that erroneous step. -/
theorem cancel_during_spacing_hits_undefined_shutdown :
    Trace 0 (freshConfig [c6a, c6b] defaultSpacing) evs6
      ⟨[], false, defaultSpacing, Pending.idle⟩ := by
  refine Trace.cons (by decide) Step.startDispatch ?_
  refine Trace.cons (by decide) Step.completeMore ?_
  refine Trace.cons (by decide) Step.cancelStep ?_
  refine Trace.cons (by decide) (Step.timerShutdown (by decide) (Or.inl rfl)) ?_
  exact Trace.nil

/-- Claim C4 (amended): the winning scenario parses to exactly the three
items text, sound, text — but the text contents carry the leading space
introduced by the buffer join — and every cancel-free run dispatches them in
that order with at least the 100 ms spacing between an item completion and
the next dispatch. -/
theorem win_scenario_queue_and_order :
    parseCues s4 none = [c4textA, c4soundWin, c4textB] ∧
    ∀ (t0 : Nat) (evs : List (Nat × Label)) (c'' : Config),
      Trace t0 (freshConfig (parseCues s4 none) defaultSpacing) evs c'' → CancelFree evs →
      (∃ r, [c4textA, c4soundWin, c4textB] = dispatched evs ++ r) ∧
      List.Chain' (gapRel defaultSpacing) evs := by
  have hp : parseCues s4 none = [c4textA, c4soundWin, c4textB] := by decide
  refine ⟨hp, ?_⟩
  intro t0 evs c'' htr hcf
  have h := trace_shape htr hcf
  refine ⟨?_, h.2.2⟩
  obtain ⟨r, hq⟩ := h.1
  refine ⟨r, ?_⟩
  rw [← hp]
  exact hq

/-- Counterexample to C4 as stated: the parsed text contents are not exactly
the claimed strings (each carries a leading space). -/
theorem win_scenario_text_not_exact :
    parseCues s4 none ≠ [c4claimedA, c4soundWin, c4claimedB] := by decide

/-- Witness for C4 on a complete three-item run. -/
theorem win_scenario_queue_and_order_witness :
    (∃ r, [c4textA, c4soundWin, c4textB] = dispatched evs4 ++ r) ∧
    List.Chain' (gapRel defaultSpacing) evs4 := by
  refine win_scenario_queue_and_order.2 0 evs4 ⟨[], false, defaultSpacing, Pending.idle⟩ ?_
    (by decide)
  have e : freshConfig (parseCues s4 none) defaultSpacing =
      freshConfig [c4textA, c4soundWin, c4textB] defaultSpacing := by decide
  rw [e]
  refine Trace.cons (by decide) Step.startDispatch ?_
  refine Trace.cons (by decide) Step.completeMore ?_
  refine Trace.cons (by decide) (Step.timerDispatch (by decide)) ?_
  refine Trace.cons (by decide) Step.completeMore ?_
  refine Trace.cons (by decide) (Step.timerDispatch (by decide)) ?_
  refine Trace.cons (by decide) Step.completeDone ?_
  exact Trace.nil

/-- Counterexample to C5 as stated: the embedded-marker token does not raise
any parse error — it parses to a sound cue named by the capture, and
`start()` immediately dispatches that sound. -/
theorem malformed_marker_no_error :
    parseCues sEmbedded none = [c5soundB] ∧
    startConfig (freshConfig (parseCues sEmbedded none) defaultSpacing) 0 =
      (⟨[], true, defaultSpacing, Pending.awaiting⟩, [(0, Label.dispatch c5soundB)]) :=
  ⟨by decide, by decide⟩

/-- Claim C5 (amended): a token with embedded marker syntax is treated as a
sound cue named by the greedy capture, and an unclosed marker token is
accumulated as literal text (with the joining space); no error is raised at
call time. -/
theorem malformed_marker_behavior (vp : Option String) :
    parseCues sEmbedded vp = [c5soundB] ∧
    parseCues sUnclosed vp = [⟨sSpaceUnclosed, MediaType.text, vp⟩] :=
  ⟨rfl, rfl⟩

/-- Witness for C5 with no voice preference. -/
theorem malformed_marker_behavior_witness :
    parseCues sEmbedded none = [c5soundB] ∧
    parseCues sUnclosed none = [⟨sSpaceUnclosed, MediaType.text, none⟩] :=
  malformed_marker_behavior none

/-- Claim C1 (amended): `speakWithSoundEffects` replaces the stored queue
reference without canceling the previous queue — every existing sequence is
left in exactly its previous state by the call, and every step the old queue
could take, including dispatching its remaining items, is still possible
afterwards. -/
theorem speakWithSoundEffects_preserves_old_queue (w : World) (text : String)
    (vp : Option String) (t t' : Nat) (i : Nat) (c c' : Config) (l : Label)
    (hc : w.seqs.get? i = some c) (hs : Step t' c l c') :
    (speakWithSoundEffectsW w text vp t).1.seqs.get? i = some c ∧
    WStep t' (speakWithSoundEffectsW w text vp t).1 (i, l)
      ⟨(speakWithSoundEffectsW w text vp t).1.seqs.set i c',
       (speakWithSoundEffectsW w text vp t).1.current⟩ := by
  have hlen : i < w.seqs.length := by
    by_contra hge
    rw [List.get?_eq_none.mpr (Nat.le_of_not_lt hge)] at hc
    exact Option.noConfusion hc
  have hseqs : (speakWithSoundEffectsW w text vp t).1.seqs =
      w.seqs ++ [(startConfig (freshConfig (parseCues text vp) defaultSpacing) t).1] := rfl
  have hget? : (speakWithSoundEffectsW w text vp t).1.seqs.get? i = some c := by
    rw [hseqs, List.get?_append hlen]
    exact hc
  refine ⟨hget?, ?_⟩
  have hlen2 : i < (speakWithSoundEffectsW w text vp t).1.seqs.length := by
    rw [hseqs, List.length_append]
    omega
  have hget : (speakWithSoundEffectsW w text vp t).1.seqs.get ⟨i, hlen2⟩ = c := by
    have h2 := hget?
    rw [List.get?_eq_get hlen2] at h2
    exact Option.some.inj h2
  refine WStep.seq hlen2 ?_
  rw [hget]
  exact hs

/-- Counterexample to C1 as stated: after a new `speakWithSoundEffects` call
at time 20, the previously active queue is still in its old state (one sound
item left, mid-delay), and at time 120 it dispatches that remaining item —
the old queue was not canceled. -/
theorem old_queue_still_dispatches_after_new_call :
    (speakWithSoundEffectsW c1world sHello none 20).1.seqs.get? 0 = some c1old ∧
    WStep 120 (speakWithSoundEffectsW c1world sHello none 20).1 (0, Label.dispatch c1soundItem)
      ⟨(speakWithSoundEffectsW c1world sHello none 20).1.seqs.set 0
          ⟨[], true, defaultSpacing, Pending.awaiting⟩,
       (speakWithSoundEffectsW c1world sHello none 20).1.current⟩ := by
  constructor
  · decide
  · refine WStep.seq (by decide) ?_
    exact Step.timerDispatch (by decide)

/-- Witness for C1 applying the amended theorem at the concrete two-queue
world. -/
theorem speakWithSoundEffects_preserves_old_queue_witness :
    (speakWithSoundEffectsW c1world sHello none 21).1.seqs.get? 0 = some c1old ∧
    WStep 121 (speakWithSoundEffectsW c1world sHello none 21).1 (0, Label.dispatch c1soundItem)
      ⟨(speakWithSoundEffectsW c1world sHello none 21).1.seqs.set 0
          ⟨[], true, defaultSpacing, Pending.awaiting⟩,
       (speakWithSoundEffectsW c1world sHello none 21).1.current⟩ :=
  speakWithSoundEffects_preserves_old_queue c1world sHello none 21 121 0 c1old
    ⟨[], true, defaultSpacing, Pending.awaiting⟩ (Label.dispatch c1soundItem)
    (by decide) (Step.timerDispatch (by decide))

end Plink
